import Mathlib

/-!
Verification of the wavelet high-pass mip pipeline of
src/nvtt/tools/highpass.cpp and the pipeline orchestration of
src/nvtt/tools/compress.cpp.

Modelling conventions:
* IEEE floats are modelled as exact rationals; every arithmetic formula is
  transcribed literally from the source.
* An image level is a total function from column, row and channel index to a
  rational value; the flat pointer-walked buffers of the source are modelled
  by these indexed functions, with the offset bookkeeping of the source
  reflected in which level or block each definition reads.
* Transcendental library calls (powf for gamma, sqrtf for the normal z
  reconstruction) are abstract function parameters, since their values are
  not rational; no claim depends on their values beyond simple properties.
* The diagnostic statistics (pass_info medians, the gray workspace) and the
  min-max scan of decompose are not modelled: no output depends on them.
-/

/-- An image level: value at column x, row y, channel ch (floats as ℚ). -/
abbrev Image : Type := ℕ → ℕ → ℕ → ℚ

/-- Forward 2x2 Haar block, the inner loop of HighPass::decompose_rows
(highpass.cpp lines 113-149): from the four per-channel values
a at (2x,2y), b at (2x+1,2y), c at (2x,2y+1), d at (2x+1,2y+1)
produce (sac, dac, sbd, dbd). -/
def decompose_block (a b c d : ℚ) : ℚ × ℚ × ℚ × ℚ :=
  let sa := (a + b) / 2
  let db := a - b
  let sc := (c + d) / 2
  let dd := c - d
  let sac := (sa + sc) / 2
  let dac := sa - sc
  let sbd := (db + dd) / 2
  let dbd := db - dd
  (sac, dac, sbd, dbd)

/-- Inverse 2x2 block, the inner loop of HighPass::compose_rows
(highpass.cpp lines 178-211); cf is the band-pass coefficient
multiplying the three detail bands.  Returns (a, b, c, d). -/
def compose_block (sac dac0 sbd0 dbd0 cf : ℚ) : ℚ × ℚ × ℚ × ℚ :=
  let dac := cf * dac0
  let sbd := cf * sbd0
  let dbd := cf * dbd0
  let sa := sac + dac / 2
  let sc := sac - dac / 2
  let db := sbd + dbd / 2
  let dd := sbd - dbd / 2
  (sa + db / 2, sa - db / 2, sc + dd / 2, sc - dd / 2)

/-- The pyramid of averages built by the level loop of HighPass::decompose
(highpass.cpp lines 265-293): level 0 is the loaded linear tile, level m+1
holds the sac outputs of the 2x2 blocks of level m. -/
def decompose_avg (pix : Image) : ℕ → Image
  | 0 => pix
  | m + 1 => fun x y ch =>
      (decompose_block
        (decompose_avg pix m (2 * x) (2 * y) ch)
        (decompose_avg pix m (2 * x + 1) (2 * y) ch)
        (decompose_avg pix m (2 * x) (2 * y + 1) ch)
        (decompose_avg pix m (2 * x + 1) (2 * y + 1) ch)).1

/-- The parallel pyramid of detail bands (dac, sbd, dbd) written to _wavbuf
by decompose_rows while decomposing level m. -/
def decompose_detail (pix : Image) (m : ℕ) (x y ch : ℕ) : ℚ × ℚ × ℚ :=
  let f := decompose_block
    (decompose_avg pix m (2 * x) (2 * y) ch)
    (decompose_avg pix m (2 * x + 1) (2 * y) ch)
    (decompose_avg pix m (2 * x) (2 * y + 1) ch)
    (decompose_avg pix m (2 * x + 1) (2 * y + 1) ch)
  (f.2.1, f.2.2.1, f.2.2.2)

/-- The 8-bit round trip applied to the topmost average by decompose
(highpass.cpp lines 305-313): uint r = uint(v * 255 + 0.5); v = r / 255.f.
The value is nonnegative there, so the C uint truncation is a floor. -/
def quant_rt (v : ℚ) : ℚ := ((⌊v * 255 + 1 / 2⌋ : ℤ) : ℚ) / 255

/-- The topmost 1x1 average as left in _sums when decompose returns
(highpass.cpp lines 297-313): Normal mode forces (1, 0, 0, alpha);
otherwise channels 0-2 are round-tripped through 8 bits, alpha untouched. -/
def decompose_top (pix : Image) (n : ℕ) (tonormal : Bool) (ch : ℕ) : ℚ :=
  if tonormal then
    if ch = 0 then 1
    else if ch = 1 ∨ ch = 2 then 0
    else decompose_avg pix n 0 0 ch
  else
    if ch < 3 then quant_rt (decompose_avg pix n 0 0 ch)
    else decompose_avg pix n 0 0 ch

/-- The contents of the _sums pyramid right after decompose returns true on a
2^n x 2^n input: slab m (of width 2^(n-m)) indexed from the finest m = 0;
only the topmost slab differs from the raw averages. -/
def S_stored (pix : Image) (n : ℕ) (tonormal : Bool) (m : ℕ) : Image :=
  fun x y ch =>
    if m = n then decompose_top pix n tonormal ch
    else decompose_avg pix m x y ch

/-- The power-of-two gate of HighPass::decompose (highpass.cpp line 222):
true when the input is rejected, i.e. (len & (len - 1)) != 0.  For len = 0
the C expression is 0 & 0xFFFFFFFF = 0 and Nat gives 0 &&& 0 = 0: both accept. -/
def pow2_reject (len : ℕ) : Bool := (len &&& (len - 1)) != 0

/-- One RGBA sample of load_row (highpass.cpp lines 62-110), with the three
template arguments NB, SRGB, NORM; pow22 stands for powf(x, 2.2f).
r, g, b, a are the four bytes in memory order. -/
def load_pixel (NB : ℕ) (SRGB NORM : Bool) (pow22 : ℚ → ℚ) (r g b a : ℕ) :
    ℚ × ℚ × ℚ × ℚ :=
  let rgb :=
    if NORM then
      ((((r : ℤ) - 127 : ℤ) : ℚ) * (1 / 127),
       (((g : ℤ) - 127 : ℤ) : ℚ) * (1 / 127),
       (((b : ℤ) - 127 : ℤ) : ℚ) * (1 / 127))
    else
      let a0 := (r : ℚ) * (1 / 255)
      let b0 := (g : ℚ) * (1 / 255)
      let c0 := (b : ℚ) * (1 / 255)
      if SRGB then (pow22 a0, pow22 b0, pow22 c0) else (a0, b0, c0)
  let alpha := if NB < 4 then 1 else (a : ℚ) * (1 / 255)
  (rgb.1, rgb.2.1, rgb.2.2, alpha)

/-- The band-pass coefficient of HighPass::reconstruct_level
(highpass.cpp line 349): cf = i < levsup ? ldexpf(1.0f, i - levsup) : 1.0f,
with ldexpf(1, e) = 2^e exact. -/
def cf_code (levsup : ℤ) (i : ℕ) : ℚ :=
  if (i : ℤ) < levsup then (2 : ℚ) ^ ((i : ℤ) - levsup) else 1

/-- One composition step of reconstruct_level: the finer image of width 2w is
produced from the coarser image of width w and one detail slab by
compose_rows; position parities select the a/b/c/d output of the block. -/
def compose_step (coarse : Image) (det : ℕ → ℕ → ℕ → ℚ × ℚ × ℚ) (cf : ℚ) :
    Image :=
  fun x y ch =>
    let d := det (x / 2) (y / 2) ch
    let q := compose_block (coarse (x / 2) (y / 2) ch) d.1 d.2.1 d.2.2 cf
    if x % 2 = 0 then
      (if y % 2 = 0 then q.1 else q.2.2.1)
    else
      (if y % 2 = 0 then q.2.1 else q.2.2.2)

/-- The i-loop of HighPass::reconstruct_level (highpass.cpp lines 343-362):
step 0 starts from the seeded 1x1 top; step i composes width 2^(i+1) from
width 2^i using the detail slab of pyramid level n - i - 1 and the
coefficient cf_code levsup i. -/
def recon_steps (t : ℕ → ℚ) (det : ℕ → ℕ → ℕ → ℕ → ℚ × ℚ × ℚ) (n : ℕ)
    (levsup : ℤ) : ℕ → Image
  | 0 => fun _ _ ch => t ch
  | i + 1 =>
      compose_step (recon_steps t det n levsup i) (det (n - i - 1))
        (cf_code levsup i)

/-- HighPass::reconstruct_level (highpass.cpp lines 330-367) on a decomposed
2^n x 2^n image: seeds from the stored top, runs level composition steps with
levsup = _levels - 1 - level - unfiltered, and yields the image of width
2^level (this is also what the trailing memcpy stores back into _sums). -/
def reconstruct_level (pix : Image) (n : ℕ) (tonormal : Bool) (level : ℕ)
    (unfiltered : ℤ) : Image :=
  recon_steps (decompose_top pix n tonormal) (decompose_detail pix) n
    ((n : ℤ) - 1 - level - unfiltered) level

/-- The contents of the _sums slabs after HighPass::reconstruct ran
reconstruct_level for every level 0..n: slab of width 2^e holds the
reconstruction at level e (the memcpy of line 366). -/
def S_after_reconstruct (pix : Image) (n : ℕ) (tonormal : Bool)
    (unfiltered : ℤ) : ℕ → Image :=
  fun e => reconstruct_level pix n tonormal e unfiltered

/-- saturate of highpass.cpp line 175. -/
def saturate (v : ℚ) : ℚ := if v < 0 then 0 else if v > 1 then 1 else v

/-- The byte quantization of get_image_mips: uint8_t(0.5f + 255 * fvec).
All quantized values lie in [0, 255.5), so the C truncation is a floor. -/
def quant8 (x : ℚ) : ℤ := ⌊1 / 2 + 255 * x⌋

/-- Reinterpretation of a 32-bit unsigned value as a signed int, as done by
the assignment int p = (K * k + 1) * k of highpass.cpp line 392. -/
def toSigned32 (v : ℕ) : ℤ :=
  if v % 2 ^ 32 < 2 ^ 31 then (v % 2 ^ 32 : ℤ) else (v % 2 ^ 32 : ℤ) - 2 ^ 32

/-- The dither noise of get_image_mips (highpass.cpp lines 389-393):
noise = int((2047483673 * k + 1) * k) * (1 / 2^31), in [-1, 1). -/
def noise (k : ℕ) : ℚ :=
  ((toSigned32 ((2047483673 * k + 1) * k) : ℤ) : ℚ) * (1 / 2 ^ 31)

/-- bgr_to_coycg of highpass.cpp lines 10-24; the input components are
fvec[0], fvec[1], fvec[2] and the result is (yog[0], yog[1], yog[2]). -/
def bgr_to_coycg (in0 in1 in2 : ℚ) : ℚ × ℚ × ℚ :=
  let r := in2
  let g := in1
  let b := in0
  let y := (r + 2 * g + b) * (1 / 4)
  let co := (2 * r - 2 * b) * (1 / 4) * 2
  let cg := (-r + 2 * g - b) * (1 / 4) * 2
  let bias : ℚ := 15 / 31
  (bias * (2 * cg + 1), y, bias * (2 * co + 1))

/-- The per-pixel body of the k-loop of HighPass::get_image_mips
(highpass.cpp lines 387-422).  sqrtf and powg (powf(x, 1/2.2f)) are
abstract; k is the float index of the pixel (a multiple of 4); the result
is the four emitted bytes, alpha always 255. -/
def emit_pixel (sqrtf powg : ℚ → ℚ) (tosrgb tonorm toyuv : Bool) (k : ℕ)
    (ps0 ps1 ps2 : ℚ) : ℤ × ℤ × ℤ × ℤ :=
  let nz := noise k
  let fv :=
    if tonorm then
      let blue2 := 1 - (ps1 * ps1 + ps2 * ps2)
      let blue := if blue2 > 0 then sqrtf blue2 else 0
      (saturate ((blue + 1) * (127 / 255)),
       saturate ((ps1 + 1) * (127 / 255)),
       saturate ((ps2 + 1) * (127 / 255)))
    else if tosrgb || toyuv then
      let f0 := powg (saturate ps0)
      let f1 := powg (saturate ps1)
      let f2 := powg (saturate ps2)
      if toyuv then
        let yog := bgr_to_coycg f0 f1 f2
        (yog.1, yog.2.1 + 1 / 2 / 63 * nz, yog.2.2)
      else (f0, f1, f2)
    else (saturate ps0, saturate ps1, saturate ps2)
  (quant8 fv.1, quant8 fv.2.1, quant8 fv.2.2, 255)

/-- One call to InputOptions::setMipmapData recorded by get_image_mips. -/
structure MipCall where
  level : ℕ
  width : ℕ
  data : List (ℤ × ℤ × ℤ × ℤ)
deriving DecidableEq

/-- The mip emitted for the slab of width 2^e (loop body of get_image_mips,
highpass.cpp lines 377-426): mip index _levels - e, 4^e pixels scanned
row-major with float index k = 4 * j. -/
def mip_call_at (sqrtf powg : ℚ → ℚ) (S : ℕ → Image) (n : ℕ)
    (tosrgb tonorm toyuv : Bool) (e : ℕ) : MipCall :=
  { level := n - e
    width := 2 ^ e
    data := (List.range (4 ^ e)).map fun j =>
      emit_pixel sqrtf powg tosrgb tonorm toyuv (4 * j)
        (S e (j % 2 ^ e) (j / 2 ^ e) 0)
        (S e (j % 2 ^ e) (j / 2 ^ e) 1)
        (S e (j % 2 ^ e) (j / 2 ^ e) 2) }

/-- The for (i = _levels + 1; i > 0;) loop of get_image_mips: counts e down,
first emitting the slab of width 2^n, last the 1x1 slab. -/
def mips_loop (sqrtf powg : ℚ → ℚ) (S : ℕ → Image) (n : ℕ)
    (tosrgb tonorm toyuv : Bool) : ℕ → List MipCall
  | 0 => []
  | e + 1 =>
      mip_call_at sqrtf powg S n tosrgb tonorm toyuv e ::
        mips_loop sqrtf powg S n tosrgb tonorm toyuv e

/-- HighPass::get_image_mips (highpass.cpp lines 370-427) as the ordered
list of setMipmapData calls it performs on a decomposed 2^n x 2^n pyramid. -/
def get_image_mips (sqrtf powg : ℚ → ℚ) (S : ℕ → Image) (n : ℕ)
    (tosrgb tonorm toyuv : Bool) : List MipCall :=
  mips_loop sqrtf powg S n tosrgb tonorm toyuv (n + 1)

/-- The mip pipelines the orchestrator can run on a regular image input. -/
inductive MipPipeline
  | highpass
  | roughness
  | coverage
  | fillholes
  | plain
deriving DecidableEq

/-- The pipeline selection chain of main (compress.cpp lines 853-951):
if (highPassMips) ... else if (!input_normal_for_roughness.isNull()) ...
else if (scaleCoverageChannels[0..3] any) ... else if (fillHoles) ... else. -/
def select_pipeline (highPassMips nfRough cov0 cov1 cov2 cov3 fillHoles : Bool) :
    MipPipeline :=
  if highPassMips then .highpass
  else if nfRough then .roughness
  else if cov0 || cov1 || cov2 || cov3 then .coverage
  else if fillHoles then .fillholes
  else .plain

/-- The downstream sink settings the orchestrator chooses among
(compress.cpp lines 984-1005): normal-map flag, convert-to-normal-map flag,
input and output gamma, mipmap normalization.  (setColorToNormalMap also
sets a height evaluation; no claim concerns it.) -/
structure SinkConfig where
  normalMap : Bool
  convertToNormalMap : Bool
  gammaIn : ℚ
  gammaOut : ℚ
  normalizeMipmaps : Bool
deriving DecidableEq

/-- setColorToNormalMap of compress.cpp lines 197-206. -/
def setColorToNormalMap : SinkConfig := ⟨false, true, 1, 1, true⟩

/-- setNormalMap of compress.cpp lines 209-215. -/
def setNormalMapCfg : SinkConfig := ⟨true, false, 1, 1, true⟩

/-- setColorMap of compress.cpp lines 218-224 (2.2f modelled as 11/5). -/
def setColorMap : SinkConfig := ⟨false, false, 11 / 5, 11 / 5, false⟩

/-- setLinearMap of compress.cpp lines 227-233. -/
def setLinearMap : SinkConfig := ⟨false, false, 1, 1, false⟩

/-- The sink configuration chain of main (compress.cpp lines 984-1005). -/
def sink_config (highPassMips linear normal color2normal : Bool) : SinkConfig :=
  if highPassMips then ⟨true, false, 1, 1, false⟩
  else if linear then setLinearMap
  else if normal then setNormalMapCfg
  else if color2normal then setColorToNormalMap
  else setColorMap

/-- The three row-loader interpretations of load_row. -/
inductive LoadMode
  | linearMode
  | srgbMode
  | normMode
deriving DecidableEq

/-- load_row_fn selection inside HighPass::decompose (highpass.cpp lines
238-240): tonormal picks the NORM instantiation, else srgbin the SRGB one,
else the plain linear one. -/
def decompose_load_mode (srgbin tonormal : Bool) : LoadMode :=
  if tonormal then .normMode else if srgbin then .srgbMode else .linearMode

/-- The loader mode of the wavelet path as invoked by main: compress.cpp
line 858 calls high_pass(..., linear || normal, normal, ...), and high_pass
(highpass.cpp line 433) passes srgbin = !linear to decompose. -/
def high_pass_load_mode (linear normal : Bool) : LoadMode :=
  decompose_load_mode (!(linear || normal)) normal

/-- The band-pass coefficient as the spec states it (first variant):
cf = (i < levsup) ? 2^(i - levsup) : 1 with levsup = log2(W) - 1 - L - skip. -/
def cf_spec (log2W L : ℕ) (skip : ℤ) (i : ℕ) : ℚ :=
  if (i : ℤ) < (log2W : ℤ) - 1 - (L : ℤ) - skip then
    (2 : ℚ) ^ ((i : ℤ) - ((log2W : ℤ) - 1 - (L : ℤ) - skip))
  else 1

/-- The dither noise as the spec states it: ((2047483673 k + 1) k as a
signed 32-bit product) divided by 2^31. -/
def noise_spec (k : ℕ) : ℚ :=
  ((toSigned32 ((2047483673 * k + 1) * k) : ℤ) : ℚ) / 2 ^ 31

/-- nz = sqrt(max(0, 1 - ps1^2 - ps2^2)) as computed by the tonormal branch
of get_image_mips (sqrtf abstract, applied only to positive arguments). -/
def nzOf (sqrtf : ℚ → ℚ) (ps1 ps2 : ℚ) : ℚ :=
  if 1 - (ps1 * ps1 + ps2 * ps2) > 0 then sqrtf (1 - (ps1 * ps1 + ps2 * ps2))
  else 0

/-- Concrete 2x2 linear tile: the tile load_row (Linear mode) produces from
a 2x2 RGBA image whose bytes are 255 at pixel (1,1) and 0 elsewhere. -/
def cex_tile : Image := fun x y _ => if x = 1 ∧ y = 1 then 1 else 0

/-- Concrete 4x4 test tile with distinct rational values per position. -/
def wit_tile : Image := fun x y ch => ((x + 2 * y + ch : ℕ) : ℚ) / 8

/-- The inverse block undoes the forward block at cf = 1, and a constant
shift of the sac input shifts all four outputs by the same constant. -/
theorem compose_block_decompose_block (a b c d q : ℚ) :
    compose_block ((decompose_block a b c d).1 + q) (decompose_block a b c d).2.1
      (decompose_block a b c d).2.2.1 (decompose_block a b c d).2.2.2 1
      = (a + q, b + q, c + q, d + q) := by
  simp only [decompose_block, compose_block]
  refine Prod.ext ?_ (Prod.ext ?_ (Prod.ext ?_ ?_)) <;> ring

/-- When every composition step runs with cf = 1 (levsup nonpositive), step i
of the reconstruction reproduces pyramid level n - i, offset everywhere by
the difference between the seed and the exact top average. -/
theorem recon_steps_all_pass (pix : Image) (t : ℕ → ℚ) (n : ℕ) (levsup : ℤ)
    (hls : levsup ≤ 0) :
    ∀ i, i ≤ n → ∀ x y ch, x < 2 ^ i → y < 2 ^ i →
      recon_steps t (decompose_detail pix) n levsup i x y ch
        = decompose_avg pix (n - i) x y ch
            + (t ch - decompose_avg pix n 0 0 ch) := by
  intro i
  induction i with
  | zero =>
      intro _ x y ch hx hy
      have hx0 : x = 0 := by omega
      have hy0 : y = 0 := by omega
      subst hx0; subst hy0
      simp only [recon_steps, Nat.sub_zero]
      ring
  | succ i ih =>
      intro hin x y ch hx hy
      have hi : i ≤ n := by omega
      have h2 : 2 ^ (i + 1) = 2 * 2 ^ i := by rw [pow_succ]; ring
      have hx2 : x / 2 < 2 ^ i := by omega
      have hy2 : y / 2 < 2 ^ i := by omega
      have hcf : cf_code levsup i = 1 := by
        unfold cf_code
        rw [if_neg]
        omega
      show compose_step (recon_steps t (decompose_detail pix) n levsup i)
            (decompose_detail pix (n - i - 1)) (cf_code levsup i) x y ch = _
      rw [hcf]
      unfold compose_step
      rw [ih hi (x / 2) (y / 2) ch hx2 hy2]
      obtain ⟨m, hm⟩ : ∃ m, n - i = m + 1 := ⟨n - i - 1, by omega⟩
      have hm2 : n - (i + 1) = m := by omega
      rw [hm, hm2, Nat.add_sub_cancel]
      simp only [decompose_avg, decompose_detail]
      rw [compose_block_decompose_block]
      rcases Nat.mod_two_eq_zero_or_one x with hx1 | hx1 <;>
        rcases Nat.mod_two_eq_zero_or_one y with hy1 | hy1
      · have ex : 2 * (x / 2) = x := by omega
        have ey : 2 * (y / 2) = y := by omega
        simp [hx1, hy1, ex, ey]
      · have ex : 2 * (x / 2) = x := by omega
        have ey : 2 * (y / 2) + 1 = y := by omega
        simp [hx1, hy1, ex, ey]
      · have ex : 2 * (x / 2) + 1 = x := by omega
        have ey : 2 * (y / 2) = y := by omega
        simp [hx1, hy1, ex, ey]
      · have ex : 2 * (x / 2) + 1 = x := by omega
        have ey : 2 * (y / 2) + 1 = y := by omega
        simp [hx1, hy1, ex, ey]

/-- Claim C1 (amended): the inverse block formula of compose_rows with
cf = 1 applied to the outputs of the forward block formula of
decompose_rows returns exactly (a, b, c, d); hence with skip = log2(W),
which makes cf = 1 at every composed level, reconstruction at the finest
level reproduces the input linear tile when seeded with the exact top-level
average, and the actual reconstruct_level output equals the input shifted
everywhere by the constant difference between the stored (8-bit
round-tripped) top average and the exact top average. -/
theorem claim_C1 :
    (∀ a b c d : ℚ,
      compose_block (decompose_block a b c d).1 (decompose_block a b c d).2.1
        (decompose_block a b c d).2.2.1 (decompose_block a b c d).2.2.2 1
        = (a, b, c, d))
  ∧ (∀ (pix : Image) (n x y ch : ℕ), x < 2 ^ n → y < 2 ^ n →
      recon_steps (fun c => decompose_avg pix n 0 0 c) (decompose_detail pix)
        n ((n : ℤ) - 1 - (n : ℤ) - (n : ℤ)) n x y ch = pix x y ch)
  ∧ (∀ (pix : Image) (n x y ch : ℕ) (tonormal : Bool), x < 2 ^ n → y < 2 ^ n →
      reconstruct_level pix n tonormal n (n : ℤ) x y ch
        = pix x y ch
            + (decompose_top pix n tonormal ch - decompose_avg pix n 0 0 ch)) := by
  refine ⟨?_, ?_, ?_⟩
  · intro a b c d
    have h := compose_block_decompose_block a b c d 0
    simpa using h
  · intro pix n x y ch hx hy
    have h := recon_steps_all_pass pix (fun c => decompose_avg pix n 0 0 c) n
      ((n : ℤ) - 1 - (n : ℤ) - (n : ℤ)) (by omega) n le_rfl x y ch hx hy
    rw [h, Nat.sub_self, sub_self, add_zero]
    rfl
  · intro pix n x y ch tonormal hx hy
    have h := recon_steps_all_pass pix (decompose_top pix n tonormal) n
      ((n : ℤ) - 1 - (n : ℤ) - (n : ℤ)) (by omega) n le_rfl x y ch hx hy
    rw [reconstruct_level, h, Nat.sub_self]
    rfl

/-- Witness for claim C1 at a concrete 2x2 tile, finest level, skip = 1. -/
theorem claim_C1_witness :
    1 < 2 ^ 1 ∧
      reconstruct_level wit_tile 1 false 1 ((1 : ℕ) : ℤ) 1 1 0
        = wit_tile 1 1 0
            + (decompose_top wit_tile 1 false 0 - decompose_avg wit_tile 1 0 0 0) :=
  ⟨by norm_num, claim_C1.2.2 wit_tile 1 1 1 0 false (by norm_num) (by norm_num)⟩

/-- Counterexample to claim C1 as stated: on the 2x2 linear tile cex_tile
(bytes 255 at pixel (1,1), 0 elsewhere) with skip = log2 W = 1, the
reconstruction at the finest level differs from the input tile, because
decompose stored the top average 1/4 round-tripped through 8 bits
(64/255), shifting every reconstructed value by 1/1020. -/
theorem claim_C1_counterexample :
    reconstruct_level cex_tile 1 false 1 1 0 0 0 ≠ cex_tile 0 0 0 := by
  simp only [reconstruct_level, recon_steps, compose_step, cf_code,
    decompose_top, decompose_avg, decompose_detail, decompose_block,
    compose_block, quant_rt, cex_tile]
  norm_num

/-- Claim C2 (amended): after decompose succeeds, for every non-top level l
with l + 1 still below the top, the stored average at level l + 1 equals the
mean of the four stored averages under it, computed as
((a + b)/2 + (c + d)/2)/2; when l + 1 is the top level the alpha channel
keeps the exact mean while each colour channel stores the mean round-tripped
through 8 bits (Normal mode instead forces (1, 0, 0)). -/
theorem claim_C2 (pix : Image) (n : ℕ) (tonormal : Bool) (l x y ch : ℕ) :
    (l + 1 < n →
      S_stored pix n tonormal (l + 1) x y ch
        = ((S_stored pix n tonormal l (2 * x) (2 * y) ch
              + S_stored pix n tonormal l (2 * x + 1) (2 * y) ch) / 2
            + (S_stored pix n tonormal l (2 * x) (2 * y + 1) ch
              + S_stored pix n tonormal l (2 * x + 1) (2 * y + 1) ch) / 2) / 2)
  ∧ (l + 1 = n → tonormal = false → ch = 3 →
      S_stored pix n tonormal (l + 1) 0 0 ch
        = ((S_stored pix n tonormal l 0 0 ch
              + S_stored pix n tonormal l 1 0 ch) / 2
            + (S_stored pix n tonormal l 0 1 ch
              + S_stored pix n tonormal l 1 1 ch) / 2) / 2)
  ∧ (l + 1 = n → tonormal = false → ch < 3 →
      S_stored pix n tonormal (l + 1) 0 0 ch
        = quant_rt (((S_stored pix n tonormal l 0 0 ch
              + S_stored pix n tonormal l 1 0 ch) / 2
            + (S_stored pix n tonormal l 0 1 ch
              + S_stored pix n tonormal l 1 1 ch) / 2) / 2)) := by
  refine ⟨?_, ?_, ?_⟩
  · intro h
    have h1 : l + 1 ≠ n := by omega
    have h0 : l ≠ n := by omega
    simp only [S_stored, if_neg h1, if_neg h0, decompose_avg, decompose_block]
  · intro heq htn hch
    subst heq; subst htn; subst hch
    have h0 : l ≠ l + 1 := by omega
    simp only [S_stored, if_pos rfl, if_neg h0, decompose_top,
      Bool.false_eq_true, if_false]
    norm_num [decompose_avg, decompose_block]
  · intro heq htn hch
    subst heq; subst htn
    have h0 : l ≠ l + 1 := by omega
    simp only [S_stored, if_pos rfl, if_neg h0, decompose_top,
      Bool.false_eq_true, if_false, if_pos hch]
    congr 1

/-- Witness for claim C2: level pair (1, 0) of a decomposed 4x4 tile. -/
theorem claim_C2_witness :
    0 + 1 < 2 ∧
      S_stored wit_tile 2 false (0 + 1) 0 0 0
        = ((S_stored wit_tile 2 false 0 (2 * 0) (2 * 0) 0
              + S_stored wit_tile 2 false 0 (2 * 0 + 1) (2 * 0) 0) / 2
            + (S_stored wit_tile 2 false 0 (2 * 0) (2 * 0 + 1) 0
              + S_stored wit_tile 2 false 0 (2 * 0 + 1) (2 * 0 + 1) 0) / 2) / 2 :=
  ⟨by norm_num, (claim_C2 wit_tile 2 false 0 0 0 0).1 (by norm_num)⟩

/-- Counterexample to claim C2 as stated: on the decomposed 2x2 tile
cex_tile, l = 0 is a non-top level, yet the stored top average (level 1) at
(0,0) is the quantized 64/255 and not the mean 1/4 of the four level-0
averages. -/
theorem claim_C2_counterexample :
    S_stored cex_tile 1 false 1 0 0 0
      ≠ ((S_stored cex_tile 1 false 0 0 0 0
            + S_stored cex_tile 1 false 0 1 0 0) / 2
          + (S_stored cex_tile 1 false 0 0 1 0
            + S_stored cex_tile 1 false 0 1 1 0) / 2) / 2 := by
  simp only [S_stored, decompose_top, decompose_avg, decompose_block,
    quant_rt, cex_tile]
  norm_num

/-- Claim C3: in reconstruct_level, for every target level L in [0, log2 W],
every skip value, and every step i in 0..L-1, the coefficient multiplying
the three detail bands at step i is cf = (i < levsup) ? 2^(i - levsup) : 1
with levsup = log2(W) - 1 - L - skip (the first variant). -/
theorem claim_C3 (n L : ℕ) (skip : ℤ) (i : ℕ) (t : ℕ → ℚ)
    (det : ℕ → ℕ → ℕ → ℕ → ℚ × ℚ × ℚ) (hL : L ≤ n) (hi : i < L) :
    recon_steps t det n ((n : ℤ) - 1 - (L : ℤ) - skip) (i + 1)
        = compose_step (recon_steps t det n ((n : ℤ) - 1 - (L : ℤ) - skip) i)
            (det (n - i - 1)) (cf_spec n L skip i)
      ∧ cf_code ((n : ℤ) - 1 - (L : ℤ) - skip) i = cf_spec n L skip i := by
  have hc : cf_code ((n : ℤ) - 1 - (L : ℤ) - skip) i = cf_spec n L skip i := rfl
  exact ⟨by rw [← hc]; rfl, hc⟩

/-- Witness for claim C3 at n = 1, L = 1, skip = 0, i = 0. -/
theorem claim_C3_witness :
    (1 : ℕ) ≤ 1 ∧ (0 : ℕ) < 1 ∧
      cf_code (((1 : ℕ) : ℤ) - 1 - ((1 : ℕ) : ℤ) - 0) 0 = cf_spec 1 1 0 0 :=
  ⟨le_refl 1, Nat.zero_lt_one,
    (claim_C3 1 1 0 0 (fun _ => 0) (fun _ _ _ _ => (0, 0, 0)) (le_refl 1)
      Nat.zero_lt_one).2⟩

/-- j < m positions of the countdown emission loop of get_image_mips. -/
theorem mips_loop_get (sqrtf powg : ℚ → ℚ) (S : ℕ → Image) (n : ℕ)
    (tosrgb tonorm toyuv : Bool) :
    ∀ m j, j < m →
      (mips_loop sqrtf powg S n tosrgb tonorm toyuv m).get? j
        = some (mip_call_at sqrtf powg S n tosrgb tonorm toyuv (m - 1 - j)) := by
  intro m
  induction m with
  | zero => intro j hj; omega
  | succ m ih =>
      intro j hj
      cases j with
      | zero => simp [mips_loop]
      | succ j =>
          have hj2 : j < m := by omega
          have hm : m + 1 - 1 - (j + 1) = m - 1 - j := by omega
          simp only [mips_loop, List.get?_cons_succ, hm]
          exact ih j hj2

/-- Claim C4 (amended): get_image_mips delivers the mips finest first: the
j-th call to set_mipmap (0-based) carries mip index j and width
W / 2^j = 2^(n-j), walking S in its storage order, which is finest (W x W)
first down to 1x1 last. -/
theorem claim_C4 (sqrtf powg : ℚ → ℚ) (S : ℕ → Image) (n : ℕ)
    (tosrgb tonorm toyuv : Bool) (j : ℕ) (hj : j ≤ n) :
    ((get_image_mips sqrtf powg S n tosrgb tonorm toyuv).get? j).map
        (fun mc => (mc.level, mc.width))
      = some (j, 2 ^ (n - j)) := by
  have h := mips_loop_get sqrtf powg S n tosrgb tonorm toyuv (n + 1) j (by omega)
  have he : n + 1 - 1 - j = n - j := by omega
  rw [get_image_mips, h, he]
  have hl : n - (n - j) = j := by omega
  simp [mip_call_at, hl]

/-- The bit test len & (len - 1) is zero exactly on zero and the powers of
two. -/
theorem and_pred_eq_zero_iff (len : ℕ) :
    len &&& (len - 1) = 0 ↔ len = 0 ∨ ∃ k, len = 2 ^ k := by
  constructor
  · intro h
    by_contra hc
    push_neg at hc
    obtain ⟨h0, hp⟩ := hc
    set k := Nat.log2 len with hk
    have h1 : 2 ^ k ≤ len := Nat.log2_self_le h0
    have h2 : len < 2 ^ (k + 1) := Nat.lt_log2_self
    have h3 : 2 ^ k ≠ len := fun he => hp k he.symm
    have h4 : 2 ^ (k + 1) = 2 * 2 ^ k := by rw [pow_succ]; ring
    have hp0 : 0 < 2 ^ k := Nat.pos_pow_of_pos k (by norm_num)
    have hb1 : len.testBit k = true := by
      rw [Nat.testBit_to_div_mod]
      have d1 : 1 ≤ len / 2 ^ k := (Nat.one_le_div_iff hp0).mpr h1
      have d2 : len / 2 ^ k < 2 := by
        rw [Nat.div_lt_iff_lt_mul hp0]
        omega
      have d3 : len / 2 ^ k = 1 := by omega
      simp [d3]
    have hb2 : (len - 1).testBit k = true := by
      rw [Nat.testBit_to_div_mod]
      have d1 : 1 ≤ (len - 1) / 2 ^ k := (Nat.one_le_div_iff hp0).mpr (by omega)
      have d2 : (len - 1) / 2 ^ k < 2 := by
        rw [Nat.div_lt_iff_lt_mul hp0]
        omega
      have d3 : (len - 1) / 2 ^ k = 1 := by omega
      simp [d3]
    have hb : (len &&& (len - 1)).testBit k = true := by
      rw [Nat.testBit_and, hb1, hb2]
      rfl
    rw [h, Nat.zero_testBit] at hb
    exact Bool.false_ne_true hb
  · rintro (rfl | ⟨k, rfl⟩)
    · simp
    · apply Nat.eq_of_testBit_eq
      intro i
      rw [Nat.testBit_and, Nat.zero_testBit]
      rcases eq_or_ne i k with rfl | hik
      · rw [Nat.testBit_two_pow_sub_one]
        simp
      · rw [Nat.testBit_two_pow_of_ne hik.symm]
        rfl

/-- Claim C5 (amended): decompose rejects its width argument with the
NotPow2 error (returns false) iff W is nonzero and not a power of two; in
particular 640 is rejected.  W = 0 slips through the bit test
(0 & (0 - 1) = 0 in unsigned arithmetic) and is accepted. -/
theorem claim_C5 :
    (∀ len : ℕ, pow2_reject len = true ↔ len ≠ 0 ∧ ¬∃ k, len = 2 ^ k)
      ∧ pow2_reject 640 = true := by
  have hiff : ∀ len : ℕ,
      pow2_reject len = true ↔ len ≠ 0 ∧ ¬∃ k, len = 2 ^ k := by
    intro len
    have h := not_congr (and_pred_eq_zero_iff len)
    push_neg at h
    unfold pow2_reject
    rw [bne_iff_ne, not_exists]
    exact h
  refine ⟨hiff, (hiff 640).mpr ⟨by norm_num, ?_⟩⟩
  rintro ⟨k, hk⟩
  have hk10 : k < 10 := by
    by_contra hge
    push_neg at hge
    have hle : 2 ^ 10 ≤ 2 ^ k := Nat.pow_le_pow_right (by norm_num) hge
    omega
  interval_cases k <;> norm_num at hk

/-- Counterexample to claim C5 as stated: W = 0 is not a positive power of
two, yet the gate accepts it (pow2_reject 0 = false), so the claimed iff
fails at 0. -/
theorem claim_C5_counterexample :
    pow2_reject 0 = false ∧ ¬∃ k : ℕ, (0 : ℕ) = 2 ^ k := by
  constructor
  · simp [pow2_reject]
  · rintro ⟨k, hk⟩
    have hp : 0 < 2 ^ k := Nat.pos_pow_of_pos k (by norm_num)
    omega

/-- Witness for claim C4: second call of a two-level pyramid. -/
theorem claim_C4_witness :
    (1 : ℕ) ≤ 1 ∧
      ((get_image_mips (fun q => q) (fun q => q) (fun _ _ _ _ => 0) 1
          false false false).get? 1).map (fun mc => (mc.level, mc.width))
        = some (1, 2 ^ (1 - 1)) :=
  ⟨le_refl 1,
    claim_C4 (fun q => q) (fun q => q) (fun _ _ _ _ => 0) 1 false false false 1
      (le_refl 1)⟩

/-- Counterexample to claim C4 as stated: for a 2x2 pyramid the very first
set_mipmap call carries width 2 = W (the finest level), not
W / 2^(log2 W - 0) = 1, so delivery is not coarsest first. -/
theorem claim_C4_counterexample :
    ((get_image_mips (fun q => q) (fun q => q) (fun _ _ _ _ => 0) 1
        false false false).get? 0).map (fun mc => mc.width) = some 2
      ∧ (2 : ℕ) ≠ 2 ^ 1 / 2 ^ (1 - 0) := by
  constructor
  · simp [get_image_mips, mips_loop, mip_call_at]
  · norm_num

/-- Claim C6 (amended): the Normal-mode row loader as instantiated by
decompose (NB = 4) produces channel = (byte - 127) / 127 for each of R, G,
B (so 127 maps to 0 and 255 to 128/127) and alpha = alphaByte / 255; the
claimed alpha = 1 only holds in the NB < 4 instantiations, which decompose
never selects. -/
theorem claim_C6 (pow22 : ℚ → ℚ) (r g b a : ℕ) :
    load_pixel 4 false true pow22 r g b a
        = (((r : ℚ) - 127) / 127, ((g : ℚ) - 127) / 127,
            ((b : ℚ) - 127) / 127, (a : ℚ) / 255)
      ∧ (load_pixel 4 false true pow22 127 g b a).1 = 0
      ∧ (load_pixel 4 false true pow22 255 g b a).1 = 128 / 127 := by
  refine ⟨?_, ?_, ?_⟩
  · simp only [load_pixel, if_true, Prod.mk.injEq]
    norm_num
    refine ⟨?_, ?_, ?_, ?_⟩ <;> push_cast <;> ring
  · norm_num [load_pixel]
  · norm_num [load_pixel]

/-- Counterexample to claim C6 as stated: a Normal-mode sample whose alpha
byte is 0 loads with alpha = 0, not alpha = 1. -/
theorem claim_C6_counterexample :
    (load_pixel 4 false true (fun q => q) 200 10 50 0).2.2.2 = 0
      ∧ (0 : ℚ) ≠ 1 := by
  constructor
  · norm_num [load_pixel]
  · norm_num

/-- Claim C7 (amended): in tonormal mode the mip emitter computes
nz = sqrt(max(0, 1 - ps1^2 - ps2^2)) and emits the bytes
(floor((nz+1)*127 + 1/2), floor((ps1+1)*127 + 1/2),
floor((ps2+1)*127 + 1/2), 255) — the scale is 127/255 followed by the
0.5 + 255 x quantizer, not 127.5 — so the top-level pixel for the stored
Normal-mode average (1, 0, 0) is (254, 127, 127, 255). -/
theorem claim_C7 (sqrtf powg : ℚ → ℚ) (tosrgb toyuv : Bool) (k : ℕ)
    (ps0 ps1 ps2 : ℚ)
    (hs : ∀ q, 0 < q → q ≤ 1 → 0 ≤ sqrtf q ∧ sqrtf q ≤ 1)
    (h1 : -1 ≤ ps1) (h2 : ps1 ≤ 1) (h3 : -1 ≤ ps2) (h4 : ps2 ≤ 1) :
    emit_pixel sqrtf powg tosrgb true toyuv k ps0 ps1 ps2
      = (⌊(nzOf sqrtf ps1 ps2 + 1) * 127 + 1 / 2⌋,
         ⌊(ps1 + 1) * 127 + 1 / 2⌋,
         ⌊(ps2 + 1) * 127 + 1 / 2⌋, 255) := by
  have hsat : ∀ v : ℚ, -1 ≤ v → v ≤ 1 →
      saturate ((v + 1) * (127 / 255)) = (v + 1) * (127 / 255) := by
    intro v hv1 hv2
    unfold saturate
    rw [if_neg (by nlinarith), if_neg (by nlinarith)]
  have hmain : ∀ v : ℚ, -1 ≤ v → v ≤ 1 →
      quant8 (saturate ((v + 1) * (127 / 255))) = ⌊(v + 1) * 127 + 1 / 2⌋ := by
    intro v hv1 hv2
    rw [hsat v hv1 hv2]
    unfold quant8
    congr 1
    ring
  have hnz : -1 ≤ nzOf sqrtf ps1 ps2 ∧ nzOf sqrtf ps1 ps2 ≤ 1 := by
    by_cases hpos : 1 - (ps1 * ps1 + ps2 * ps2) > 0
    · have hble : 1 - (ps1 * ps1 + ps2 * ps2) ≤ 1 := by nlinarith
      obtain ⟨ha, hb⟩ := hs _ hpos hble
      simp only [nzOf, if_pos hpos]
      exact ⟨by linarith, hb⟩
    · simp only [nzOf, if_neg hpos]
      norm_num
  have e1 : emit_pixel sqrtf powg tosrgb true toyuv k ps0 ps1 ps2
      = (quant8 (saturate ((nzOf sqrtf ps1 ps2 + 1) * (127 / 255))),
         quant8 (saturate ((ps1 + 1) * (127 / 255))),
         quant8 (saturate ((ps2 + 1) * (127 / 255))), 255) := rfl
  rw [e1, hmain _ hnz.1 hnz.2, hmain _ h1 h2, hmain _ h3 h4]

/-- Witness for claim C7 at the Normal-mode stored top average (1, 0, 0),
with sqrtf any function sending 1 to 1 (as the real sqrtf does). -/
theorem claim_C7_witness :
    emit_pixel (fun _ => 1) (fun q => q) false true false 0 1 0 0
      = (254, 127, 127, 255) := by
  have h := claim_C7 (fun _ => 1) (fun q => q) false false 0 1 0 0
    (fun q hq hq1 => ⟨by norm_num, by norm_num⟩) (by norm_num) (by norm_num)
    (by norm_num) (by norm_num)
  rw [h]
  norm_num [nzOf]

/-- Counterexample to claim C7 as stated: with stored average (1, 0, 0) the
emitted pixel is (254, 127, 127, 255), not the claimed (255, 128, 128, 255)
(sqrtf instantiated as the identity, which is correct at the argument 1). -/
theorem claim_C7_counterexample :
    emit_pixel (fun q => q) (fun q => q) false true false 0 1 0 0
        = (254, 127, 127, 255)
      ∧ ((254, 127, 127, 255) : ℤ × ℤ × ℤ × ℤ) ≠ (255, 128, 128, 255) := by
  constructor
  · norm_num [emit_pixel, saturate, quant8]
  · decide

/-- Claim C8: the mip-producing path is deterministic — equal stored
pyramids give byte-identical mip output — the dither noise added to Y is
the pure function of the pixel index stated by the spec, and its amplitude
is bounded by 0.5/63. -/
theorem claim_C8 :
    (∀ (sqrtf powg : ℚ → ℚ) (S T : ℕ → Image) (n : ℕ)
        (tosrgb tonorm toyuv : Bool),
        (∀ e x y ch, S e x y ch = T e x y ch) →
        get_image_mips sqrtf powg S n tosrgb tonorm toyuv
          = get_image_mips sqrtf powg T n tosrgb tonorm toyuv)
  ∧ (∀ k, noise k = noise_spec k)
  ∧ (∀ k, |(1 / 2 / 63 : ℚ) * noise k| ≤ 1 / 2 / 63) := by
  refine ⟨?_, ?_, ?_⟩
  · intro sqrtf powg S T n tosrgb tonorm toyuv hST
    have hf : S = T := by
      funext e x y ch
      exact hST e x y ch
    rw [hf]
  · intro k
    unfold noise noise_spec
    ring
  · intro k
    have hm : (2047483673 * k + 1) * k % 2 ^ 32 < 2 ^ 32 :=
      Nat.mod_lt _ (by norm_num)
    have hb1 : -(2 ^ 31 : ℤ) ≤ toSigned32 ((2047483673 * k + 1) * k) := by
      unfold toSigned32
      split <;> omega
    have hb2 : toSigned32 ((2047483673 * k + 1) * k) ≤ 2 ^ 31 := by
      unfold toSigned32
      split <;> omega
    have hsq : |((toSigned32 ((2047483673 * k + 1) * k) : ℤ) : ℚ)| ≤ 2 ^ 31 := by
      rw [abs_le]
      constructor
      · exact_mod_cast hb1
      · exact_mod_cast hb2
    have hnb : |noise k| ≤ 1 := by
      unfold noise
      rw [abs_mul]
      have h1 : |(1 / 2 ^ 31 : ℚ)| = 1 / 2 ^ 31 := abs_of_nonneg (by norm_num)
      rw [h1]
      nlinarith [hsq]
    have ha : |(1 / 2 / 63 : ℚ)| = 1 / 2 / 63 := abs_of_nonneg (by norm_num)
    rw [abs_mul, ha]
    nlinarith [hnb, abs_nonneg (noise k)]

/-- Witness for claim C8: two runs over the same 1x1 pyramid coincide. -/
theorem claim_C8_witness :
    get_image_mips (fun q => q) (fun q => q) (fun _ _ _ _ => 0) 0
        false false false
      = get_image_mips (fun q => q) (fun q => q) (fun _ _ _ _ => 0) 0
        false false false :=
  claim_C8.1 (fun q => q) (fun q => q) _ _ 0 false false false
    (fun _ _ _ _ => rfl)

/-- Claim C9: the orchestrator runs exactly one mip pipeline per
invocation, chosen with precedence high-pass > roughness-from-normal >
coverage-preserving > hole-fill > plain. -/
theorem claim_C9 (hp nfr c0 c1 c2 c3 fh : Bool) :
    (select_pipeline hp nfr c0 c1 c2 c3 fh = .highpass ↔ hp = true)
  ∧ (select_pipeline hp nfr c0 c1 c2 c3 fh = .roughness
      ↔ (hp = false ∧ nfr = true))
  ∧ (select_pipeline hp nfr c0 c1 c2 c3 fh = .coverage
      ↔ (hp = false ∧ nfr = false ∧ (c0 || c1 || c2 || c3) = true))
  ∧ (select_pipeline hp nfr c0 c1 c2 c3 fh = .fillholes
      ↔ (hp = false ∧ nfr = false ∧ (c0 || c1 || c2 || c3) = false
          ∧ fh = true))
  ∧ (select_pipeline hp nfr c0 c1 c2 c3 fh = .plain
      ↔ (hp = false ∧ nfr = false ∧ (c0 || c1 || c2 || c3) = false
          ∧ fh = false)) := by
  cases hp <;> cases nfr <;> cases c0 <;> cases c1 <;> cases c2 <;>
    cases c3 <;> cases fh <;> simp [select_pipeline]

/-- Claim C10: whenever the high-pass pipeline is selected the sink is
configured with normal-map processing on, convert-to-normal-map off, both
gammas 1.0 and mipmap normalization off, regardless of the -color, -linear
or -normal flags; those flags only pick the row-loader mode of the wavelet
path (-normal gives the signed-normal loader, -linear the linear loader,
the default the sRGB loader). -/
theorem claim_C10 :
    (∀ linear normal color2normal : Bool,
        sink_config true linear normal color2normal
          = ⟨true, false, 1, 1, false⟩)
  ∧ (∀ linear normal : Bool,
        high_pass_load_mode linear normal
          = if normal then LoadMode.normMode
            else if linear then LoadMode.linearMode
            else LoadMode.srgbMode) := by
  constructor
  · intro linear normal color2normal
    rfl
  · intro linear normal
    cases linear <;> cases normal <;> rfl
